import Mathlib

/-!
# Medical-reports lifecycle core: shallow embedding and verification

A shallow embedding of the report-lifecycle core of the `medical-reports`
repository: the content model and validators (`internal/domain/section.go`),
the report aggregate and its status workflow (`internal/domain`, report part),
the postgres-backed repository modelled as an in-memory store
(`internal/repository/postgres/report_repository.go`), and the orchestrating
report service (`internal/services/report_service.go`).

Modelling conventions:
* Go `string` is Lean `String`; Go `len` on a string is `String.utf8ByteSize`
  (Go counts bytes).
* `time.Time` is a `Nat` instant; the store carries a logical clock that every
  `time.Now()` call reads, and that advances between operations.
* `uuid.UUID` is a `Nat`; fresh ids come from a counter in the store.
* A Go method returning `error` becomes `Option DomainError` (`none` = `nil`)
  or `Except DomainError α`.
* Database failures (`ErrDatabaseQuery` etc.) are modelled away: the in-memory
  store's own operations always succeed, and only the not-found paths of
  `GetByID` / `GetVersion` produce errors, exactly as in the source's
  control flow.
-/

namespace MedicalReports

/-- Error values from `internal/domain/errors.go`. -/
inductive DomainError where
  | reportNotFound
  | cannotEditNonDraft
  | cannotModifySignedReport
  | invalidStatusTransition
  | incompleteReport
  | invalidCNP
  | emptyField
  | invalidDate
  | invalidDiagnosis
  | databaseConnection
  | databaseQuery
deriving DecidableEq, Repr

/-! ## Content model (`internal/domain/section.go`) -/

/-- Patient demographics section. -/
structure PatientDataSection where
  firstName : String
  lastName : String
  cnp : String
  birthDate : Nat
  department : String
  ward : String
  bed : String
  admissionDate : Nat
  dischargeDate : Nat
deriving DecidableEq, Repr

/-- `PatientDataSection.Validate`: non-empty names, 13-byte CNP, discharge not
before admission. -/
def PatientDataSection.Validate (s : PatientDataSection) : Option DomainError :=
  if s.firstName = "" ∨ s.lastName = "" then some .emptyField
  else if s.cnp.utf8ByteSize ≠ 13 then some .invalidCNP
  else if s.dischargeDate < s.admissionDate then some .invalidDate
  else none

/-- Medical history section. -/
structure AnamnesisSection where
  chiefComplaint : String
  historyOfPresentIllness : String
  pastMedicalHistory : String
  allergies : String
  socialHistory : String
deriving DecidableEq, Repr

/-- `AnamnesisSection.Validate`: chief complaint must be non-empty. -/
def AnamnesisSection.Validate (s : AnamnesisSection) : Option DomainError :=
  if s.chiefComplaint = "" then some .emptyField else none

structure VitalSigns where
  bloodPressure : String
  heartRate : Int
  temperature : Int
  respiratoryRate : Int
  oxygenSaturation : Int
deriving DecidableEq, Repr

/-- Physical examination findings. -/
structure ExaminationSection where
  generalCondition : String
  consciousness : String
  vitalSigns : VitalSigns
  systemsReview : String
deriving DecidableEq, Repr

/-- `ExaminationSection.Validate` always succeeds. -/
def ExaminationSection.Validate (_s : ExaminationSection) : Option DomainError :=
  none

structure LabTest where
  name : String
  result : String
  unit : String
  date : Nat
deriving DecidableEq, Repr

structure Imaging where
  type : String
  description : String
  date : Nat
deriving DecidableEq, Repr

/-- Laboratory and imaging results. -/
structure LabResultsSection where
  laboratoryTests : List LabTest
  imagingStudies : List Imaging
deriving DecidableEq, Repr

/-- `LabResultsSection.Validate` always succeeds. -/
def LabResultsSection.Validate (_s : LabResultsSection) : Option DomainError :=
  none

structure ICD10Code where
  code : String
  description : String
deriving DecidableEq, Repr

/-- Diagnoses section. -/
structure DiagnosisSection where
  primaryDiagnosis : ICD10Code
  secondaryDiagnoses : List ICD10Code
  clinicalObservations : String
deriving DecidableEq, Repr

/-- `DiagnosisSection.Validate`: primary diagnosis code must be non-empty. -/
def DiagnosisSection.Validate (s : DiagnosisSection) : Option DomainError :=
  if s.primaryDiagnosis.code = "" then some .invalidDiagnosis else none

structure Medication where
  name : String
  dosage : String
  frequency : String
  route : String
  startDate : Nat
  endDate : Option Nat
deriving DecidableEq, Repr

structure Procedure where
  name : String
  description : String
  performedAt : Nat
deriving DecidableEq, Repr

/-- Treatment information. -/
structure TreatmentSection where
  medications : List Medication
  procedures : List Procedure
deriving DecidableEq, Repr

/-- `TreatmentSection.Validate` always succeeds. -/
def TreatmentSection.Validate (_s : TreatmentSection) : Option DomainError :=
  none

/-- Discharge instructions. -/
structure RecommendationsSection where
  dischargePlan : String
  medications : String
  followUp : String
  dietRestrictions : String
  activityRestrictions : String
deriving DecidableEq, Repr

/-- `RecommendationsSection.Validate` always succeeds. -/
def RecommendationsSection.Validate (_s : RecommendationsSection) :
    Option DomainError :=
  none

/-- `ReportContent` holds all sections. -/
structure ReportContent where
  patientData : PatientDataSection
  anamnesis : AnamnesisSection
  examination : ExaminationSection
  labResults : LabResultsSection
  diagnosis : DiagnosisSection
  treatment : TreatmentSection
  recommendations : RecommendationsSection
deriving DecidableEq, Repr

/-- `ReportContent.Validate`: patient data, then anamnesis, then diagnosis;
first failure wins (the other sections are never consulted). -/
def ReportContent.Validate (c : ReportContent) : Option DomainError :=
  match c.patientData.Validate with
  | some e => some e
  | none =>
    match c.anamnesis.Validate with
    | some e => some e
    | none => c.diagnosis.Validate

/-- `ReportContent.IsComplete`: `Validate() == nil`. -/
def ReportContent.IsComplete (c : ReportContent) : Bool :=
  c.Validate.isNone

/-- The Go zero value of `ReportContent` (all strings empty, all times zero,
all slices nil), the content a fresh report starts with. -/
def ReportContent.empty : ReportContent :=
  { patientData :=
      { firstName := "", lastName := "", cnp := "", birthDate := 0
        department := "", ward := "", bed := ""
        admissionDate := 0, dischargeDate := 0 }
    anamnesis :=
      { chiefComplaint := "", historyOfPresentIllness := ""
        pastMedicalHistory := "", allergies := "", socialHistory := "" }
    examination :=
      { generalCondition := "", consciousness := ""
        vitalSigns :=
          { bloodPressure := "", heartRate := 0, temperature := 0
            respiratoryRate := 0, oxygenSaturation := 0 }
        systemsReview := "" }
    labResults := { laboratoryTests := [], imagingStudies := [] }
    diagnosis :=
      { primaryDiagnosis := { code := "", description := "" }
        secondaryDiagnoses := [], clinicalObservations := "" }
    treatment := { medications := [], procedures := [] }
    recommendations :=
      { dischargePlan := "", medications := "", followUp := ""
        dietRestrictions := "", activityRestrictions := "" } }

/-! ## Report aggregate and workflow (`internal/domain`, report part) -/

/-- Workflow status of a report. -/
inductive Status where
  | draft
  | inReview
  | approved
  | signed
  | cancelled
deriving DecidableEq, Repr

/-- `ValidTransitions`: the allowed-status-change table. -/
def ValidTransitions : Status → List Status
  | .draft => [.inReview, .cancelled]
  | .inReview => [.draft, .approved, .cancelled]
  | .approved => [.signed, .draft]
  | .signed => []
  | .cancelled => []

/-- A medical discharge report. -/
structure Report where
  id : Nat
  hospitalID : Nat
  patientCNP : String
  patientFirstName : String
  patientLastName : String
  specialty : String
  reportType : String
  status : Status
  content : ReportContent
  createdBy : Nat
  createdAt : Nat
  lastModified : Nat
  finalizedAt : Option Nat
deriving DecidableEq, Repr

/-- `NewReport` constructs a report in draft status with empty content; `now`
stands for the `time.Now()` call, `id` for the generated uuid. -/
def NewReport (id hospitalID : Nat) (patientCNP firstName lastName : String)
    (specialty reportType : String) (doctorID : Nat) (now : Nat) : Report :=
  { id := id
    hospitalID := hospitalID
    patientCNP := patientCNP
    patientFirstName := firstName
    patientLastName := lastName
    specialty := specialty
    reportType := reportType
    status := .draft
    content := ReportContent.empty
    createdBy := doctorID
    createdAt := now
    lastModified := now
    finalizedAt := none }

/-- `Report.CanTransitionTo`: membership of the target in the current
status's allowed list. -/
def Report.CanTransitionTo (r : Report) (newStatus : Status) : Bool :=
  (ValidTransitions r.status).contains newStatus

/-- An immutable content snapshot in the version ledger. -/
structure ReportVersion where
  id : Nat
  reportID : Nat
  versionNumber : Nat
  content : ReportContent
  savedAt : Nat
  savedBy : Nat
  comment : String
deriving DecidableEq, Repr

/-- `NewReportVersion`; `id` stands for the generated uuid and `now` for the
`time.Now()` call. -/
def NewReportVersion (id reportID : Nat) (versionNumber : Nat)
    (content : ReportContent) (userID : Nat) (comment : String) (now : Nat) :
    ReportVersion :=
  { id := id
    reportID := reportID
    versionNumber := versionNumber
    content := content
    savedAt := now
    savedBy := userID
    comment := comment }

/-! ## Repository model (`internal/repository/postgres/report_repository.go`)

The postgres store is modelled in memory.  The `reports` table holds report
rows; crucially, neither `Create` nor `Update` ever writes a content column —
`GetByID` materializes a report's content from its highest-numbered ledger
entry via a lateral join, falling back to the Go zero value when the report
has no versions.  `Update` writes only `status`, `last_modified` and
`finalized_at`.  The store also carries the logical clock read by
`time.Now()` and the counter producing fresh uuids. -/

structure Store where
  reports : List Report
  versions : List ReportVersion
  clock : Nat
  nextID : Nat
deriving DecidableEq, Repr

/-- The empty database. -/
def Store.empty : Store :=
  { reports := [], versions := [], clock := 0, nextID := 0 }

/-- `GetVersions`: all ledger entries of one report (the service uses only
their count, so the `ORDER BY version_number DESC` of the query is not
modelled). -/
def Store.GetVersions (s : Store) (reportID : Nat) : List ReportVersion :=
  s.versions.filter (fun v => v.reportID == reportID)

/-- The `ORDER BY version_number DESC LIMIT 1` lateral subquery of `GetByID`:
a ledger entry of maximal version number, if any exist. -/
def Store.latestVersion (s : Store) (reportID : Nat) : Option ReportVersion :=
  (s.GetVersions reportID).foldl
    (fun acc v =>
      match acc with
      | none => some v
      | some m => if m.versionNumber < v.versionNumber then some v else some m)
    none

/-- `GetByID`: load the report row and materialize its content from the
latest ledger entry (`contentJSON` is nil — content stays the zero value —
when the report has no versions). -/
def Store.GetByID (s : Store) (id : Nat) : Except DomainError Report :=
  match s.reports.find? (fun r => r.id == id) with
  | none => .error .reportNotFound
  | some r =>
    match s.latestVersion id with
    | some v => .ok { r with content := v.content }
    | none => .ok r

/-- `Update`: writes only `status`, `last_modified`, `finalized_at` of the
matching row (an absent id updates no row and is not an error). -/
def Store.Update (s : Store) (r : Report) : Store :=
  { s with
    reports := s.reports.map (fun x =>
      if x.id == r.id then
        { x with
          status := r.status
          lastModified := r.lastModified
          finalizedAt := r.finalizedAt }
      else x) }

/-- The commit of `INSERT INTO report_versions`: the row is added to the
table.  This is the success path only; the schema (the migration embedded
in `start-dev.sh`, auto-applied on startup) declares
`UNIQUE(report_id, version_number)`, and the full conditional insert with
that constraint is `Store.SaveVersionChecked` below. -/
def Store.SaveVersion (s : Store) (v : ReportVersion) : Store :=
  { s with versions := s.versions ++ [v] }

/-- `SaveVersion` as the database executes it: the insert commits unless a
row with the same `(report_id, version_number)` already exists, in which
case the statement fails with a unique-constraint violation and the table
is unchanged. -/
def Store.SaveVersionChecked (s : Store) (v : ReportVersion) :
    Except DomainError Store :=
  if s.versions.any (fun w =>
      w.reportID == v.reportID && w.versionNumber == v.versionNumber) then
    .error .databaseQuery
  else
    .ok (s.SaveVersion v)

/-- `GetVersion`: the ledger entry of one report with a given number;
`sql.ErrNoRows` becomes `ErrReportNotFound`. -/
def Store.GetVersion (s : Store) (reportID versionNumber : Nat) :
    Except DomainError ReportVersion :=
  match s.versions.find?
      (fun v => v.reportID == reportID && v.versionNumber == versionNumber) with
  | none => .error .reportNotFound
  | some v => .ok v

/-- `Create`: insert the report row (no content column), then save the
initial ledger entry, version 1, comment `"Initial version"`. -/
def Store.Create (s : Store) (report : Report) : Store :=
  let s := { s with reports := s.reports ++ [report] }
  let version := NewReportVersion s.nextID report.id 1 report.content
    report.createdBy "Initial version" s.clock
  let s := { s with nextID := s.nextID + 1 }
  s.SaveVersion version

/-- `Delete`: remove the report row (its ledger entries remain). -/
def Store.Delete (s : Store) (id : Nat) : Store :=
  { s with reports := s.reports.filter (fun r => ¬ r.id == id) }

/-! ## Report service (`internal/services/report_service.go`)

Each operation takes the store, returns its Go result paired with the store
after the operation.  Error paths in the source return before any repository
write, so they return the store unchanged.  Within one operation every
`time.Now()` reads the store's clock. -/

/-- Go's conversion `string(rune(n))` for a non-negative integer `n`: the
value first wraps to `int32`, and the result is the UTF-8 encoding of that
code point when it is a valid Unicode scalar value, the replacement
character U+FFFD otherwise.  After the wrap `m := n % 2^32`, every
`m ≥ 2^31` stands for a negative rune, which is invalid; the condition
below already rejects those, so no signed case split is needed. -/
def goStringOfRune (n : Nat) : String :=
  let m := n % 4294967296
  if m < 0xd800 ∨ (0xe000 ≤ m ∧ m < 0x110000) then
    String.singleton (Char.ofNat m)
  else
    "�"

/-- `CreateReport`: reject a CNP whose length is not 13, else construct a
draft report and persist it together with ledger version 1. -/
def CreateReport (s : Store) (hospitalID : Nat) (patientCNP firstName lastName : String)
    (specialty reportType : String) (doctorID : Nat) :
    Except DomainError Report × Store :=
  if patientCNP.utf8ByteSize != 13 then
    (.error .invalidCNP, s)
  else
    let report := NewReport s.nextID hospitalID patientCNP firstName lastName
      specialty reportType doctorID s.clock
    let s := { s with nextID := s.nextID + 1 }
    (.ok report, s.Create report)

/-- `GetReport`: read-only lookup. -/
def GetReport (s : Store) (id : Nat) : Except DomainError Report × Store :=
  (s.GetByID id, s)

/-- `UpdateReportContent`: load the report, reject unless draft, update the
row, then append a ledger entry numbered `count + 1` with comment
`"Auto-save"`. -/
def UpdateReportContent (s : Store) (reportID : Nat) (content : ReportContent)
    (userID : Nat) : Except DomainError Unit × Store :=
  match s.GetByID reportID with
  | .error e => (.error e, s)
  | .ok report =>
    if report.status != .draft then
      (.error .cannotEditNonDraft, s)
    else
      let report := { report with content := content, lastModified := s.clock }
      let s := s.Update report
      let versions := s.GetVersions reportID
      let versionNumber := versions.length + 1
      let version := NewReportVersion s.nextID reportID versionNumber content
        userID "Auto-save" s.clock
      let s := { s with nextID := s.nextID + 1 }
      (.ok (), s.SaveVersion version)

/-- `UpdateReportStatus`: load the report, reject transitions absent from the
table, reject leaving draft for review with incomplete content; on success
update status and `lastModified`, and on a transition to approved or signed
overwrite `finalizedAt` with the current time. -/
def UpdateReportStatus (s : Store) (reportID : Nat) (newStatus : Status) :
    Except DomainError Unit × Store :=
  match s.GetByID reportID with
  | .error e => (.error e, s)
  | .ok report =>
    if !report.CanTransitionTo newStatus then
      (.error .invalidStatusTransition, s)
    else if newStatus == .inReview && !report.content.IsComplete then
      (.error .incompleteReport, s)
    else
      let report := { report with status := newStatus, lastModified := s.clock }
      let report :=
        if newStatus == .approved || newStatus == .signed then
          { report with finalizedAt := some s.clock }
        else report
      (.ok (), s.Update report)

/-- `DeleteReport`: load the report, reject unless draft, delete the row. -/
def DeleteReport (s : Store) (reportID : Nat) :
    Except DomainError Unit × Store :=
  match s.GetByID reportID with
  | .error e => (.error e, s)
  | .ok report =>
    if report.status != .draft then
      (.error .cannotEditNonDraft, s)
    else
      (.ok (), s.Delete reportID)

/-- `RestoreVersion`: load the report, reject unless draft, load the named
version (not-found error if absent), update the row, then append a new
ledger entry numbered `count + 1` carrying the historical content, with
comment `"Restored from version " + string(rune(versionNumber))`. -/
def RestoreVersion (s : Store) (reportID versionNumber : Nat) (userID : Nat) :
    Except DomainError Unit × Store :=
  match s.GetByID reportID with
  | .error e => (.error e, s)
  | .ok report =>
    if report.status != .draft then
      (.error .cannotEditNonDraft, s)
    else
      match s.GetVersion reportID versionNumber with
      | .error e => (.error e, s)
      | .ok version =>
        let report := { report with
          content := version.content, lastModified := s.clock }
        let s := s.Update report
        let versions := s.GetVersions reportID
        let newVersionNumber := versions.length + 1
        let newVersion := NewReportVersion s.nextID reportID newVersionNumber
          version.content userID
          ("Restored from version " ++ goStringOfRune versionNumber) s.clock
        let s := { s with nextID := s.nextID + 1 }
        (.ok (), s.SaveVersion newVersion)

/-! ## `UpdateReportContent` at repository-call granularity

The spec's scheduling model is request-parallel: concurrent service calls
interleave between repository calls, each repository call being atomic.
`UpdateReportContent` performs, in order: `GetByID` + draft check + `Update`
(first half), then `GetVersions` (the count read), then `SaveVersion` (the
write of count + 1).  The three pieces below are that same code cut at the
repository-call boundaries; `UpdateReportContent_eq_phases` proves the cut
faithful. -/

/-- First half of `UpdateReportContent` (load, draft check, row update). -/
def UpdateReportContentPhase1 (s : Store) (reportID : Nat)
    (content : ReportContent) : Except DomainError Unit × Store :=
  match s.GetByID reportID with
  | .error e => (.error e, s)
  | .ok report =>
    if report.status != .draft then
      (.error .cannotEditNonDraft, s)
    else
      let report := { report with content := content, lastModified := s.clock }
      (.ok (), s.Update report)

/-- The version-count read of `UpdateReportContent` (`GetVersions`). -/
def UpdateReportContentReadCount (s : Store) (reportID : Nat) : Nat :=
  (s.GetVersions reportID).length

/-- The ledger write of `UpdateReportContent`: append a version numbered
`count + 1` (success path of the insert). -/
def UpdateReportContentWrite (s : Store) (reportID count : Nat)
    (content : ReportContent) (userID : Nat) : Store :=
  let versionNumber := count + 1
  let version := NewReportVersion s.nextID reportID versionNumber content
    userID "Auto-save" s.clock
  let s := { s with nextID := s.nextID + 1 }
  s.SaveVersion version

/-- The same ledger write run against the real schema: the insert is
conditional on `UNIQUE(report_id, version_number)`, and on a violation the
service call returns the database error with the ledger unchanged
(`UpdateReportContent` ends with `return s.reportRepo.SaveVersion(...)`,
so the insert's error is the call's result). -/
def UpdateReportContentWriteChecked (s : Store) (reportID count : Nat)
    (content : ReportContent) (userID : Nat) :
    Except DomainError Unit × Store :=
  let versionNumber := count + 1
  let version := NewReportVersion s.nextID reportID versionNumber content
    userID "Auto-save" s.clock
  let s := { s with nextID := s.nextID + 1 }
  match s.SaveVersionChecked version with
  | .ok s2 => (.ok (), s2)
  | .error e => (.error e, s)

/-! ## Operation traces

Sequential executions of the orchestrator against one report: a report is
created, then a sequence of mutating service calls runs against its id.  The
logical clock advances by one after every call, so distinct calls observe
distinct `time.Now()` values. -/

/-- A mutating service call against a fixed report id. -/
inductive Op where
  | updateContent (content : ReportContent) (userID : Nat)
  | changeStatus (target : Status)
  | restoreVersion (versionNumber : Nat) (userID : Nat)
deriving Repr

/-- Let the clock advance between service calls. -/
def Store.tick (s : Store) : Store :=
  { s with clock := s.clock + 1 }

/-- Run one service call against report `id` and advance the clock. -/
def stepOp (id : Nat) (s : Store) (op : Op) : Store :=
  match op with
  | .updateContent c u => (UpdateReportContent s id c u).2.tick
  | .changeStatus t => (UpdateReportStatus s id t).2.tick
  | .restoreVersion n u => (RestoreVersion s id n u).2.tick

/-- Whether one service call against report `id` succeeded from store `s`. -/
def opSucceeds (id : Nat) (s : Store) (op : Op) : Bool :=
  match op with
  | .updateContent c u => (UpdateReportContent s id c u).1.toBool
  | .changeStatus t => (UpdateReportStatus s id t).1.toBool
  | .restoreVersion n u => (RestoreVersion s id n u).1.toBool

/-- Run a sequence of service calls against report `id`. -/
def runOps (id : Nat) (s : Store) (ops : List Op) : Store :=
  ops.foldl (stepOp id) s


/-- The store right after `CreateReport` succeeds from the empty database
with a 13-byte CNP: one draft report with id 0 and its ledger version 1.
The clock is advanced once so later calls see a later time than creation. -/
def createdStore (hospitalID : Nat) (firstName lastName specialty reportType : String)
    (doctorID : Nat) : Store :=
  (CreateReport Store.empty hospitalID "1850312400123" firstName lastName
    specialty reportType doctorID).2.tick

/-- The created report's status and `finalizedAt`, as read back through
`GetByID`. -/
def reportView (s : Store) (id : Nat) : Option (Status × Option Nat) :=
  match s.GetByID id with
  | .ok r => some (r.status, r.finalizedAt)
  | .error _ => none

/-- A content document satisfying every mandatory rule: names and chief
complaint non-empty, 13-byte CNP, discharge after admission, primary
diagnosis code present. -/
def completeContent : ReportContent :=
  { ReportContent.empty with
    patientData :=
      { ReportContent.empty.patientData with
        firstName := "Maria", lastName := "Pop", cnp := "1850312400123"
        admissionDate := 10, dischargeDate := 12 }
    anamnesis :=
      { ReportContent.empty.anamnesis with chiefComplaint := "febra" }
    diagnosis :=
      { ReportContent.empty.diagnosis with
        primaryDiagnosis := { code := "J18.1", description := "" } } }

/-- A demonstration store: the scenario report created from the empty
database. -/
def demoStore : Store :=
  createdStore 7 "Maria" "Pop" "internal_medicine" "discharge_summary" 3

/-- The report row `createdStore` produces (content empty, status draft,
created at clock 0). -/
def demoReport : Report :=
  NewReport 0 7 "1850312400123" "Maria" "Pop" "internal_medicine"
    "discharge_summary" 3 0

/-- The allowed-transition table as the spec §4.1 writes it, pair by pair:
the statement-side definition that `Report.CanTransitionTo` is compared
against. -/
def specAllowedTransition (current target : Status) : Prop :=
  (current = .draft ∧ (target = .inReview ∨ target = .cancelled)) ∨
  (current = .inReview ∧
    (target = .draft ∨ target = .approved ∨ target = .cancelled)) ∨
  (current = .approved ∧ (target = .signed ∨ target = .draft))

instance (a b : Status) : Decidable (specAllowedTransition a b) := by
  unfold specAllowedTransition
  exact inferInstance

/-- A store holding one signed report, for exercising the non-draft
guards. -/
def signedStore : Store :=
  { reports := [{ demoReport with status := Status.signed }]
    versions := [], clock := 5, nextID := 1 }

/-- Ledger version 1 of the scenario report (the initial empty snapshot). -/
def demoVersion1 : ReportVersion :=
  NewReportVersion 1 0 1 ReportContent.empty 3 "Initial version" 0

/-- The scenario store after one successful content update. -/
def demoStore2 : Store := runOps 0 demoStore [.updateContent completeContent 3]

/-- The scenario report as read back from `demoStore2`. -/
def demoReport2 : Report :=
  { demoReport with content := completeContent, lastModified := 1 }

/-- Ledger version 2 of the scenario report (the complete content). -/
def demoVersion2 : ReportVersion :=
  NewReportVersion 2 0 2 completeContent 3 "Auto-save" 1

/-- The scenario store after a content update and a move to review. -/
def demoStore3 : Store :=
  runOps 0 demoStore
    [.updateContent completeContent 3, .changeStatus .inReview]

/-- The scenario report as read back from `demoStore3`. -/
def demoReport3 : Report :=
  { demoReport with
    content := completeContent
    status := .inReview
    lastModified := 2 }

/-- Two concurrent `updateContent` calls against the scenario report,
interleaved at repository-call boundaries: both first halves run, then both
read the version count (each sees 1), then both write through the
constraint-checked insert — the schedule the spec's request-parallel model
admits.  The result pairs each call's outcome with the final store. -/
def racedChecked : (Except DomainError Unit × Except DomainError Unit) × Store :=
  let s1 := (UpdateReportContentPhase1 demoStore 0 completeContent).2
  let s2 := (UpdateReportContentPhase1 s1 0 ReportContent.empty).2
  let nA := UpdateReportContentReadCount s2 0
  let nB := UpdateReportContentReadCount s2 0
  let a := UpdateReportContentWriteChecked s2 0 nA completeContent 3
  let b := UpdateReportContentWriteChecked a.2 0 nB ReportContent.empty 4
  ((a.1, b.1), b.2)

/-- A draft report whose ledger holds a version numbered 55296 (the first
surrogate code point), for exercising the restore-comment conversion at an
invalid code point. -/
def surrogateStore : Store :=
  { reports := [demoReport]
    versions := [NewReportVersion 1 0 55296 ReportContent.empty 3 "seed" 0]
    clock := 2, nextID := 5 }

/-- The per-row part of the finalization invariant: a report in a terminal
approval state carries a finalization time, and every stored finalization
time lies strictly below the clock. -/
def RowsInv (rs : List Report) (clock : Nat) : Prop :=
  ∀ r ∈ rs,
    ((r.status = .approved ∨ r.status = .signed) → r.finalizedAt.isSome = true)
    ∧ (∀ t, r.finalizedAt = some t → t < clock)

/-- The finalization invariant of a store. -/
def StoreInv (s : Store) : Prop := RowsInv s.reports s.clock

/-- The `finalizedAt` of the report `id`, as read through `GetByID` (`none`
when the report is absent). -/
def finalizedView (s : Store) (id : Nat) : Option Nat :=
  match s.GetByID id with
  | .ok r => r.finalizedAt
  | .error _ => none

/-- Ordering on optional finalization times: absent precedes everything,
and present values compare by `≤`.  "Once set, never decreases and never
clears" is monotonicity in this order. -/
def OptTimeLE : Option Nat → Option Nat → Prop
  | none, _ => True
  | some _, none => False
  | some a, some b => a ≤ b

/-- The row map applied by `Store.Update`. -/
def updateRow (r' : Report) (x : Report) : Report :=
  if x.id == r'.id then
    { x with
      status := r'.status
      lastModified := r'.lastModified
      finalizedAt := r'.finalizedAt }
  else x

/-- Shape of the store after one mutating service call against report `id`:
either the rows are untouched, or exactly the rows with the report's id are
overwritten via `updateRow r'`, where `r'` descends from the row `GetByID`
found — with `status`/`finalizedAt` taken from that row, or (for a status
change) `finalizedAt` possibly replaced by the current clock. -/
def UpdShape (id : Nat) (s s2 : Store) : Prop :=
  s2.clock = s.clock ∧
  (s2.reports = s.reports ∨
    ∃ r' row, s.reports.find? (fun x => x.id == id) = some row ∧
      r'.id = id ∧
      s2.reports = s.reports.map (updateRow r') ∧
      ((r'.status = row.status ∧ r'.finalizedAt = row.finalizedAt) ∨
        (((r'.status = .approved ∨ r'.status = .signed) →
            r'.finalizedAt = some s.clock) ∧
          (r'.finalizedAt = some s.clock ∨
            r'.finalizedAt = row.finalizedAt))))

/-- The version numbers of one report's ledger, in insertion order. -/
def VersionNumbersOf (s : Store) (id : Nat) : List Nat :=
  (s.GetVersions id).map (fun v => v.versionNumber)

/-- Whether a service call appends a ledger entry: `changeStatus` never
does, the other two do exactly when they succeed. -/
def opAppends (id : Nat) (s : Store) (op : Op) : Bool :=
  match op with
  | .changeStatus _ => false
  | _ => opSucceeds id s op

def demoReportApproved : Report :=
  { demoReport with
    content := completeContent
    status := .approved
    lastModified := 3
    finalizedAt := some 3 }

/-- How many of the content-appending calls (`updateContent` and
`restoreVersion`; `changeStatus` never appends) succeed along a run. -/
def countAppends (id : Nat) : Store → List Op → Nat
  | _, [] => 0
  | s, op :: ops =>
    countAppends id (stepOp id s op) ops + (if opAppends id s op then 1 else 0)

/-! ## Helper lemmas about the store -/

deriving instance DecidableEq for Except

theorem Store.Update_eq_map (s : Store) (r' : Report) :
    s.Update r' = { s with reports := s.reports.map (updateRow r') } := rfl

theorem updateRow_id (r' x : Report) : (updateRow r' x).id = x.id := by
  unfold updateRow
  split <;> rfl

theorem find_updateRow (l : List Report) (id : Nat) (r' : Report) :
    (l.map (updateRow r')).find? (fun r => r.id == id) =
      (l.find? (fun r => r.id == id)).map (updateRow r') := by
  rw [List.find?_map]
  have hp : ((fun r : Report => r.id == id) ∘ updateRow r') =
      fun r : Report => r.id == id := by
    funext x
    simp [Function.comp, updateRow_id]
  rw [hp]

theorem GetByID_ok_id {s : Store} {id : Nat} {r : Report}
    (h : s.GetByID id = .ok r) : r.id = id := by
  unfold Store.GetByID at h
  cases hf : s.reports.find? (fun r => r.id == id) with
  | none => rw [hf] at h; exact absurd h (by simp)
  | some row =>
    have hrow : row.id = id := by
      have := List.find?_some hf
      simpa using this
    rw [hf] at h
    cases hl : s.latestVersion id with
    | none => rw [hl] at h; simp at h; rw [← h]; exact hrow
    | some v => rw [hl] at h; simp at h; rw [← h]; exact hrow

theorem GetByID_ok_mem {s : Store} {id : Nat} {r : Report}
    (h : s.GetByID id = .ok r) :
    ∃ row ∈ s.reports, row.id = r.id ∧ row.status = r.status ∧
      row.lastModified = r.lastModified ∧ row.finalizedAt = r.finalizedAt := by
  unfold Store.GetByID at h
  cases hf : s.reports.find? (fun r => r.id == id) with
  | none => rw [hf] at h; exact absurd h (by simp)
  | some row =>
    refine ⟨row, List.mem_of_find?_eq_some hf, ?_⟩
    rw [hf] at h
    cases hl : s.latestVersion id with
    | none => rw [hl] at h; simp at h; rw [← h]; exact ⟨rfl, rfl, rfl, rfl⟩
    | some v => rw [hl] at h; simp at h; rw [← h]; exact ⟨rfl, rfl, rfl, rfl⟩

theorem latestVersion_Update (s : Store) (r' : Report) (id : Nat) :
    (s.Update r').latestVersion id = s.latestVersion id := rfl

/-- Updating a row changes what `GetByID` returns in exactly the three
columns the SQL `UPDATE` writes. -/
theorem GetByID_Update {s : Store} {id : Nat} {r : Report} (r' : Report)
    (h : s.GetByID id = .ok r) (hid : r'.id = id) :
    (s.Update r').GetByID id =
      .ok { r with
        status := r'.status
        lastModified := r'.lastModified
        finalizedAt := r'.finalizedAt } := by
  unfold Store.GetByID at h ⊢
  rw [show (s.Update r').reports = s.reports.map (updateRow r') from rfl,
    find_updateRow, latestVersion_Update]
  cases hf : s.reports.find? (fun r => r.id == id) with
  | none => rw [hf] at h; exact absurd h (by simp)
  | some row =>
    have hrow : row.id = id := by
      have := List.find?_some hf
      simpa using this
    rw [hf] at h
    have hup : updateRow r' row =
        { row with
          status := r'.status
          lastModified := r'.lastModified
          finalizedAt := r'.finalizedAt } := by
      unfold updateRow
      rw [if_pos (by simp [hrow, hid])]
    simp only [Option.map_some']
    rw [hup]
    cases hl : s.latestVersion id with
    | none =>
      rw [hl] at h
      have h2 : row = r := by simpa using h
      subst h2
      rfl
    | some v =>
      rw [hl] at h
      have h2 : { row with content := v.content } = r := by simpa using h
      subst h2
      rfl

theorem GetVersions_Update (s : Store) (r' : Report) (id : Nat) :
    (s.Update r').GetVersions id = s.GetVersions id := rfl

theorem GetVersions_SaveVersion (s : Store) (v : ReportVersion) (id : Nat) :
    (s.SaveVersion v).GetVersions id =
      s.GetVersions id ++ if v.reportID == id then [v] else [] := by
  unfold Store.SaveVersion Store.GetVersions
  rw [List.filter_append]
  congr 1
  cases hv : v.reportID == id <;> simp [List.filter, hv]

/-- `reportView` only reads the row columns, never the materialized
content. -/
theorem reportView_eq_row (s : Store) (id : Nat) :
    reportView s id =
      (s.reports.find? (fun r => r.id == id)).map
        (fun r => (r.status, r.finalizedAt)) := by
  unfold reportView Store.GetByID
  cases hf : s.reports.find? (fun r => r.id == id) with
  | none => rfl
  | some row =>
    cases hl : s.latestVersion id with
    | none => rfl
    | some v => rfl

theorem GetVersions_length_append (s2 s : Store) (v' : ReportVersion)
    (id : Nat) (hv : s2.versions = s.versions ++ [v'])
    (hid : v'.reportID = id) :
    (s2.GetVersions id).length = (s.GetVersions id).length + 1 := by
  unfold Store.GetVersions
  rw [hv, List.filter_append]
  simp [hid]

/-! ## Content validation -/

theorem patientData_validation_characterization (s : PatientDataSection) :
    s.Validate = none ↔
      (s.firstName ≠ "" ∧ s.lastName ≠ "" ∧ s.cnp.utf8ByteSize = 13 ∧
        ¬ s.dischargeDate < s.admissionDate) := by
  unfold PatientDataSection.Validate
  (split_ifs with h1 h2 h3 <;> simp_all)
  tauto

theorem anamnesis_validation_characterization (s : AnamnesisSection) :
    s.Validate = none ↔ s.chiefComplaint ≠ "" := by
  unfold AnamnesisSection.Validate
  split_ifs with h1 <;> simp_all

theorem diagnosis_validation_characterization (s : DiagnosisSection) :
    s.Validate = none ↔ s.primaryDiagnosis.code ≠ "" := by
  unfold DiagnosisSection.Validate
  split_ifs with h1 <;> simp_all

theorem reportContent_validation_characterization (c : ReportContent) :
    c.Validate = none ↔
      (c.patientData.Validate = none ∧ c.anamnesis.Validate = none ∧
        c.diagnosis.Validate = none) := by
  unfold ReportContent.Validate
  cases hp : c.patientData.Validate <;>
    cases ha : c.anamnesis.Validate <;>
      cases hd : c.diagnosis.Validate <;> simp

/-- Claim C8: `isComplete()` is true exactly when the patient names are
non-empty, the national id has length 13, the discharge date is not before
the admission date, the chief complaint is non-empty and the primary
diagnosis code is non-empty; the examination, lab-results, treatment and
recommendations sections never affect it. -/
theorem IsComplete_characterization (c : ReportContent) :
    (c.IsComplete = true ↔
      (c.patientData.firstName ≠ "" ∧ c.patientData.lastName ≠ "" ∧
        c.patientData.cnp.utf8ByteSize = 13 ∧
        ¬ c.patientData.dischargeDate < c.patientData.admissionDate ∧
        c.anamnesis.chiefComplaint ≠ "" ∧
        c.diagnosis.primaryDiagnosis.code ≠ ""))
    ∧ ∀ ex lr tr re,
      ReportContent.IsComplete
        { c with examination := ex, labResults := lr,
                 treatment := tr, recommendations := re } = c.IsComplete := by
  constructor
  · rw [ReportContent.IsComplete, Option.isNone_iff_eq_none,
      reportContent_validation_characterization,
      patientData_validation_characterization,
      anamnesis_validation_characterization,
      diagnosis_validation_characterization]
    tauto
  · intro ex lr tr re
    rfl

/-! ## The workflow table -/

theorem canTransitionTo_iff_spec : ∀ a b : Status,
    ((ValidTransitions a).contains b = true) ↔ specAllowedTransition a b := by
  intro a b
  cases a <;> cases b <;> decide

/-- Claim C1: `changeStatus` refuses, with `InvalidTransition`, every status
pair outside the workflow table (self-transitions and the terminal states
included), and only succeeds on pairs inside it. -/
theorem changeStatus_respects_table (s : Store) (id : Nat) (target : Status)
    (r : Report) (h : s.GetByID id = .ok r) :
    (¬ specAllowedTransition r.status target →
      (UpdateReportStatus s id target).1 = .error .invalidStatusTransition)
    ∧ ((UpdateReportStatus s id target).1 = .ok () →
      specAllowedTransition r.status target) := by
  have hspec := canTransitionTo_iff_spec r.status target
  unfold UpdateReportStatus
  rw [h]
  constructor
  · intro hn
    have hc : r.CanTransitionTo target = false := by
      cases hket : r.CanTransitionTo target with
      | true => exact absurd (hspec.1 hket) hn
      | false => rfl
    simp only [hc]
    rfl
  · intro hok
    cases hc : r.CanTransitionTo target with
    | true => exact hspec.1 hc
    | false =>
      simp [hc] at hok

theorem changeStatus_respects_table_witness :
    demoStore.GetByID 0 = .ok demoReport ∧
    ¬ specAllowedTransition demoReport.status .approved ∧
    (UpdateReportStatus demoStore 0 .approved).1 =
      .error .invalidStatusTransition :=
  ⟨by decide, by decide,
    (changeStatus_respects_table demoStore 0 .approved demoReport
      (by decide)).1 (by decide)⟩

/-! ## Editing guards and creation -/

/-- Claim C5: `updateContent` on a non-draft report fails with
`EditNotAllowed` and leaves the store — report and ledger — untouched. -/
theorem updateContent_rejects_nondraft (s : Store) (id : Nat)
    (c : ReportContent) (u : Nat) (r : Report)
    (h : s.GetByID id = .ok r) (hnd : r.status ≠ .draft) :
    UpdateReportContent s id c u = (.error .cannotEditNonDraft, s) := by
  unfold UpdateReportContent
  rw [h]
  simp [hnd]

theorem updateContent_rejects_nondraft_witness :
    signedStore.GetByID 0 = .ok { demoReport with status := Status.signed } ∧
    ({ demoReport with status := Status.signed } : Report).status ≠ .draft ∧
    UpdateReportContent signedStore 0 ReportContent.empty 4 =
      (.error .cannotEditNonDraft, signedStore) :=
  ⟨by decide, by decide,
    updateContent_rejects_nondraft signedStore 0 ReportContent.empty 4
      { demoReport with status := Status.signed } (by decide) (by decide)⟩

/-- Claim C7: `create` fails with `InvalidPatientId` exactly when the
national id is not 13 bytes long; on success the report is a draft and its
ledger holds exactly one entry, numbered 1, with empty content. -/
theorem createReport_contract (s : Store) (hosp : Nat)
    (cnp fn ln sp rt : String) (doc : Nat) :
    (cnp.utf8ByteSize ≠ 13 →
      CreateReport s hosp cnp fn ln sp rt doc = (.error .invalidCNP, s))
    ∧ (cnp.utf8ByteSize = 13 →
      (∀ v ∈ s.versions, v.reportID ≠ s.nextID) →
      ∃ r s2, CreateReport s hosp cnp fn ln sp rt doc = (.ok r, s2)
        ∧ r.status = .draft
        ∧ (s2.GetVersions r.id).map (fun v => (v.versionNumber, v.content)) =
            [(1, ReportContent.empty)]) := by
  constructor
  · intro h13
    unfold CreateReport
    simp [h13]
  · intro h13 hfresh
    unfold CreateReport
    rw [if_neg (by simp [h13])]
    refine ⟨_, _, rfl, rfl, ?_⟩
    unfold Store.Create
    rw [GetVersions_SaveVersion]
    have hid : (NewReport s.nextID hosp cnp fn ln sp rt doc s.clock).id =
        s.nextID := rfl
    rw [hid]
    have hnil : List.filter
        (fun v : ReportVersion => v.reportID == s.nextID) s.versions = [] := by
      rw [List.filter_eq_nil_iff]
      intro v hv
      simpa using hfresh v hv
    simp only [Store.GetVersions]
    rw [hnil]
    simp only [List.nil_append]
    rw [if_pos (by simp [NewReportVersion])]
    rfl

theorem createReport_contract_witness :
    ("1850312400123".utf8ByteSize = 13) ∧
    (∀ v ∈ Store.empty.versions, v.reportID ≠ Store.empty.nextID) ∧
    (∃ r s2, CreateReport Store.empty 7 "1850312400123" "Maria" "Pop"
        "internal_medicine" "discharge_summary" 3 = (.ok r, s2)
      ∧ r.status = .draft
      ∧ (s2.GetVersions r.id).map (fun v => (v.versionNumber, v.content)) =
          [(1, ReportContent.empty)]) :=
  ⟨by decide, by simp [Store.empty],
    (createReport_contract Store.empty 7 "1850312400123" "Maria" "Pop"
      "internal_medicine" "discharge_summary" 3).2 (by decide)
      (by simp [Store.empty])⟩

/-! ## Restoring versions -/

/-- Claim C6: a successful `restoreVersion` on a draft leaves every prior
ledger entry unchanged, appends exactly one new entry whose content equals
the restored version's content, numbered count + 1; a non-draft status
fails with `EditNotAllowed`, an absent version with `NotFound`. -/
theorem restoreVersion_contract (s : Store) (id n u : Nat) (r : Report)
    (h : s.GetByID id = .ok r) :
    (r.status ≠ .draft →
      RestoreVersion s id n u = (.error .cannotEditNonDraft, s))
    ∧ (r.status = .draft → s.GetVersion id n = .error .reportNotFound →
      RestoreVersion s id n u = (.error .reportNotFound, s))
    ∧ (∀ v, r.status = .draft → s.GetVersion id n = .ok v →
      (RestoreVersion s id n u).1 = .ok ()
      ∧ (∃ nv, (RestoreVersion s id n u).2.versions = s.versions ++ [nv]
          ∧ nv.content = v.content ∧ nv.reportID = id
          ∧ nv.versionNumber = (s.GetVersions id).length + 1)
      ∧ ((RestoreVersion s id n u).2.GetVersions id).length =
          (s.GetVersions id).length + 1) := by
  refine ⟨?_, ?_, ?_⟩
  · intro hnd
    unfold RestoreVersion
    rw [h]
    simp [hnd]
  · intro hd hnf
    unfold RestoreVersion
    rw [h]
    simp only [hd]
    rw [hnf]
    rfl
  · intro v hd hv
    unfold RestoreVersion
    rw [h]
    simp only [hd]
    rw [hv]
    refine ⟨rfl, ⟨_, rfl, rfl, rfl, rfl⟩, ?_⟩
    exact GetVersions_length_append _ s _ id rfl rfl

theorem restoreVersion_contract_witness :
    demoStore.GetByID 0 = .ok demoReport ∧
    demoReport.status = .draft ∧
    demoStore.GetVersion 0 1 = .ok demoVersion1 ∧
    (RestoreVersion demoStore 0 1 3).1 = .ok () ∧
    ((RestoreVersion demoStore 0 1 3).2.GetVersions 0).length =
      (demoStore.GetVersions 0).length + 1 :=
  ⟨by decide, by decide, by decide,
    ((restoreVersion_contract demoStore 0 1 3 demoReport (by decide)).2.2
      demoVersion1 (by decide) (by decide)).1,
    ((restoreVersion_contract demoStore 0 1 3 demoReport (by decide)).2.2
      demoVersion1 (by decide) (by decide)).2.2⟩

/-- Claim C10 counterexample: restoring the version numbered 55296 (the
first surrogate) succeeds, but there is no Unicode character with that code
point — Go's `string(rune(n))` yields the replacement character U+FFFD, so
the comment is not `"Restored from version "` followed by the character of
code point `n`. -/
theorem restore_comment_unicode_counterexample :
    (RestoreVersion surrogateStore 0 55296 3).1 = .ok () ∧
    ((RestoreVersion surrogateStore 0 55296 3).2.versions.map
      (fun v => v.comment)) = ["seed", "Restored from version �"] ∧
    ("Restored from version �" : String) ≠
      "Restored from version " ++ String.singleton (Char.ofNat 55296) := by
  refine ⟨by decide, by decide, by decide⟩

/-- Claim C10 (amended): the comment of the entry a successful
`restoreVersion` appends is `"Restored from version "` followed by the
UTF-8 encoding of the restored version number read as a rune — the single
character of code point `n % 2^32` when that is a valid Unicode scalar
value, and the replacement character U+FFFD otherwise — never the decimal
representation of `n`. -/
theorem restore_comment_rune_conversion (s : Store) (id n u : Nat)
    (r : Report) (v : ReportVersion) (h : s.GetByID id = .ok r)
    (hd : r.status = .draft) (hv : s.GetVersion id n = .ok v) :
    ∃ nv, (RestoreVersion s id n u).2.versions = s.versions ++ [nv]
      ∧ nv.comment = "Restored from version " ++
          (if n % 4294967296 < 55296 ∨
              (57344 ≤ n % 4294967296 ∧ n % 4294967296 < 1114112) then
            String.singleton (Char.ofNat (n % 4294967296))
          else "�") := by
  unfold RestoreVersion
  rw [h]
  simp only [hd]
  rw [hv]
  exact ⟨_, rfl, rfl⟩

theorem restore_comment_rune_conversion_witness :
    demoStore2.GetByID 0 = .ok demoReport2 ∧
    demoReport2.status = .draft ∧
    demoStore2.GetVersion 0 2 = .ok demoVersion2 ∧
    (∃ nv, (RestoreVersion demoStore2 0 2 3).2.versions =
        demoStore2.versions ++ [nv]
      ∧ nv.comment = "Restored from version " ++
          (if 2 % 4294967296 < 55296 ∨
              (57344 ≤ 2 % 4294967296 ∧ 2 % 4294967296 < 1114112) then
            String.singleton (Char.ofNat (2 % 4294967296))
          else "�")) ∧
    "Restored from version " ++ String.singleton (Char.ofNat 2) ≠
      "Restored from version 2" :=
  ⟨by decide, by decide, by decide,
    restore_comment_rune_conversion demoStore2 0 2 3 demoReport2 demoVersion2
      (by decide) (by decide) (by decide),
    by decide⟩

/-! ## The review gate -/

/-- Claim C2: on a draft, `changeStatus(InReview)` fails with
`IncompleteContent` exactly when `isComplete()` is false; when complete it
succeeds, moves the report to `InReview`, and the materialized content is
unchanged. -/
theorem changeStatus_review_gate (s : Store) (id : Nat) (r : Report)
    (h : s.GetByID id = .ok r) (hd : r.status = .draft) :
    ((UpdateReportStatus s id .inReview).1 = .error .incompleteReport ↔
      r.content.IsComplete = false)
    ∧ (r.content.IsComplete = true →
      (UpdateReportStatus s id .inReview).1 = .ok ()
      ∧ ∃ r2, (UpdateReportStatus s id .inReview).2.GetByID id = .ok r2
          ∧ r2.status = .inReview ∧ r2.content = r.content) := by
  have hct : r.CanTransitionTo .inReview = true := by
    simp [Report.CanTransitionTo, hd, ValidTransitions]
  unfold UpdateReportStatus
  rw [h]
  simp only [hct]
  cases hic : r.content.IsComplete with
  | false =>
    constructor
    · simp
    · intro h2
      exact absurd h2 (by simp [hic])
  | true =>
    constructor
    · simp
    · intro _
      refine ⟨rfl, ?_⟩
      have hid2 : r.id = id := GetByID_ok_id h
      have hup := GetByID_Update
        ({ r with status := Status.inReview, lastModified := s.clock })
        h hid2
      exact ⟨_, hup, rfl, rfl⟩

theorem changeStatus_review_gate_witness :
    demoStore.GetByID 0 = .ok demoReport ∧
    demoReport.status = .draft ∧
    ((UpdateReportStatus demoStore 0 .inReview).1 =
        .error .incompleteReport ↔
      demoReport.content.IsComplete = false) :=
  ⟨by decide, by decide,
    (changeStatus_review_gate demoStore 0 demoReport (by decide)
      (by decide)).1⟩

/-- Claim C9 counterexample: before the final call the report already has
`finalizedAt = some 3`; the subsequent successful `changeStatus(Approved)`
succeeds and changes it to `some 6` — the code overwrites an already-set
`finalizedAt` instead of leaving it unchanged. -/
theorem changeStatus_finalize_counterexample :
    reportView (runOps 0 demoStore
      [.updateContent completeContent 3, .changeStatus .inReview,
        .changeStatus .approved, .changeStatus .draft,
        .changeStatus .inReview]) 0 = some (.inReview, some 3) ∧
    (UpdateReportStatus (runOps 0 demoStore
      [.updateContent completeContent 3, .changeStatus .inReview,
        .changeStatus .approved, .changeStatus .draft,
        .changeStatus .inReview]) 0 .approved).1 = .ok () ∧
    reportView (runOps 0 demoStore
      [.updateContent completeContent 3, .changeStatus .inReview,
        .changeStatus .approved, .changeStatus .draft,
        .changeStatus .inReview, .changeStatus .approved]) 0 =
      some (.approved, some 6) := by
  refine ⟨by decide, by decide, by decide⟩

/-- Claim C9 (amended): every successful `changeStatus` whose target is
Approved or Signed sets `finalizedAt` to the operation's current time,
overwriting any previous value; it is never cleared. -/
theorem changeStatus_finalize_overwrites (s : Store) (id : Nat)
    (target : Status) (r : Report) (h : s.GetByID id = .ok r)
    (htgt : target = .approved ∨ target = .signed)
    (hok : (UpdateReportStatus s id target).1 = .ok ()) :
    ∃ r2, (UpdateReportStatus s id target).2.GetByID id = .ok r2
      ∧ r2.finalizedAt = some s.clock ∧ r2.status = target := by
  have hid2 : r.id = id := GetByID_ok_id h
  unfold UpdateReportStatus at hok ⊢
  rw [h] at hok ⊢
  cases hc : r.CanTransitionTo target with
  | false => simp [hc] at hok
  | true =>
    simp only [hc]
    rcases htgt with h1 | h1 <;> subst h1
    · have hup := GetByID_Update
        ({ { r with status := Status.approved, lastModified := s.clock }
            with finalizedAt := some s.clock }) h hid2
      exact ⟨_, hup, rfl, rfl⟩
    · have hup := GetByID_Update
        ({ { r with status := Status.signed, lastModified := s.clock }
            with finalizedAt := some s.clock }) h hid2
      exact ⟨_, hup, rfl, rfl⟩

theorem changeStatus_finalize_overwrites_witness :
    demoStore3.GetByID 0 = .ok demoReport3 ∧
    (Status.approved = Status.approved ∨ Status.approved = Status.signed) ∧
    (UpdateReportStatus demoStore3 0 .approved).1 = .ok () ∧
    (∃ r2, (UpdateReportStatus demoStore3 0 .approved).2.GetByID 0 = .ok r2
      ∧ r2.finalizedAt = some demoStore3.clock ∧ r2.status = .approved) :=
  ⟨by decide, Or.inl rfl, by decide,
    changeStatus_finalize_overwrites demoStore3 0 .approved demoReport3
      (by decide) (Or.inl rfl) (by decide)⟩

/-- Phase-split faithfulness of `UpdateReportContent`. -/
theorem UpdateReportContent_eq_phases (s : Store) (id : Nat)
    (c : ReportContent) (u : Nat) :
    UpdateReportContent s id c u =
      match UpdateReportContentPhase1 s id c with
      | (.error e, s1) => (.error e, s1)
      | (.ok _, s1) =>
        (.ok (), UpdateReportContentWrite s1 id
          (UpdateReportContentReadCount s1 id) c u) := by
  unfold UpdateReportContent UpdateReportContentPhase1
    UpdateReportContentReadCount UpdateReportContentWrite
  cases h : s.GetByID id with
  | error e => rfl
  | ok r =>
    by_cases hd : (r.status != .draft) = true
    · simp [hd]
    · simp only [Bool.not_eq_true] at hd
      simp [hd]

theorem OptTimeLE_refl (o : Option Nat) : OptTimeLE o o := by
  cases o with
  | none => trivial
  | some a => exact Nat.le_refl a

theorem OptTimeLE_trans {a b c : Option Nat}
    (h1 : OptTimeLE a b) (h2 : OptTimeLE b c) : OptTimeLE a c := by
  cases a with
  | none => trivial
  | some x =>
    cases b with
    | none => exact absurd h1 (by simp [OptTimeLE])
    | some y =>
      cases c with
      | none => exact absurd h2 (by simp [OptTimeLE])
      | some z => exact Nat.le_trans h1 h2

theorem finalizedView_eq_row (s : Store) (id : Nat) :
    finalizedView s id =
      (s.reports.find? (fun r => r.id == id)).bind
        (fun r => r.finalizedAt) := by
  unfold finalizedView Store.GetByID
  cases hf : s.reports.find? (fun r => r.id == id) with
  | none => rfl
  | some row =>
    cases hl : s.latestVersion id with
    | none => rfl
    | some v => rfl

theorem GetByID_ok_row {s : Store} {id : Nat} {r : Report}
    (h : s.GetByID id = .ok r) :
    ∃ row, s.reports.find? (fun x => x.id == id) = some row ∧
      row.id = r.id ∧ row.status = r.status ∧
      row.lastModified = r.lastModified ∧ row.finalizedAt = r.finalizedAt := by
  unfold Store.GetByID at h
  cases hf : s.reports.find? (fun x => x.id == id) with
  | none => rw [hf] at h; exact absurd h (by simp)
  | some row =>
    refine ⟨row, rfl, ?_⟩
    rw [hf] at h
    cases hl : s.latestVersion id with
    | none => rw [hl] at h; simp at h; rw [← h]; exact ⟨rfl, rfl, rfl, rfl⟩
    | some v => rw [hl] at h; simp at h; rw [← h]; exact ⟨rfl, rfl, rfl, rfl⟩

theorem UpdShape_refl (id : Nat) (s : Store) : UpdShape id s s :=
  ⟨rfl, Or.inl rfl⟩


theorem UpdShape_updateContent (s : Store) (id : Nat) (c : ReportContent)
    (u : Nat) : UpdShape id s (UpdateReportContent s id c u).2 := by
  unfold UpdateReportContent
  cases h : s.GetByID id with
  | error e => exact UpdShape_refl id s
  | ok r =>
    by_cases hd : (r.status != .draft) = true
    · simp only [hd, if_true]
      exact UpdShape_refl id s
    · simp only [hd]
      obtain ⟨row, hfind, hid, hstat, hlm, hfin⟩ := GetByID_ok_row h
      have hrid : r.id = id := GetByID_ok_id h
      refine ⟨rfl, Or.inr ⟨{ r with content := c, lastModified := s.clock },
        row, hfind, hrid, rfl, Or.inl ⟨hstat.symm, hfin.symm⟩⟩⟩


theorem UpdShape_restoreVersion (s : Store) (id n u : Nat) :
    UpdShape id s (RestoreVersion s id n u).2 := by
  unfold RestoreVersion
  cases h : s.GetByID id with
  | error e => exact UpdShape_refl id s
  | ok r =>
    by_cases hd : (r.status != .draft) = true
    · simp only [hd, if_true]
      exact UpdShape_refl id s
    · simp only [hd]
      cases hv : s.GetVersion id n with
      | error e => exact UpdShape_refl id s
      | ok version =>
        obtain ⟨row, hfind, hid, hstat, hlm, hfin⟩ := GetByID_ok_row h
        have hrid : r.id = id := GetByID_ok_id h
        refine ⟨rfl, Or.inr ⟨{ r with
            content := version.content
            lastModified := s.clock },
          row, hfind, hrid, rfl, Or.inl ⟨hstat.symm, hfin.symm⟩⟩⟩

theorem UpdShape_changeStatus (s : Store) (id : Nat) (target : Status) :
    UpdShape id s (UpdateReportStatus s id target).2 := by
  unfold UpdateReportStatus
  cases h : s.GetByID id with
  | error e => exact UpdShape_refl id s
  | ok r =>
    cases hc : r.CanTransitionTo target with
    | false =>
      simp only [hc]
      exact UpdShape_refl id s
    | true =>
      simp only [hc]
      by_cases hic : (target == Status.inReview && !r.content.IsComplete) = true
      · simp only [hic, if_true]
        exact UpdShape_refl id s
      · simp only [hic]
        obtain ⟨row, hfind, hid, hstat, hlm, hfin⟩ := GetByID_ok_row h
        have hrid : r.id = id := GetByID_ok_id h
        cases hap : (target == Status.approved || target == Status.signed) with
        | true =>
          simp only [hap, if_true]
          refine ⟨rfl, Or.inr ⟨{ r with
              status := target
              lastModified := s.clock
              finalizedAt := some s.clock },
            row, hfind, hrid, rfl,
            Or.inr ⟨fun _ => rfl, Or.inl rfl⟩⟩⟩
        | false =>
          refine ⟨rfl, Or.inr ⟨{ r with
              status := target
              lastModified := s.clock },
            row, hfind, hrid, rfl, Or.inr ⟨?_, Or.inr hfin.symm⟩⟩⟩
          intro hts
          exfalso
          have hts2 : target = Status.approved ∨ target = Status.signed := hts
          rcases hts2 with h2 | h2 <;> subst h2 <;> simp at hap

theorem storeInv_of_shape {s s2 : Store} {id : Nat}
    (hs : StoreInv s) (hsh : UpdShape id s s2) : StoreInv s2.tick := by
  obtain ⟨hclock, hrep⟩ := hsh
  have hs' : RowsInv s.reports s.clock := hs
  show RowsInv s2.reports (s2.clock + 1)
  rw [hclock]
  cases hrep with
  | inl heq =>
    rw [heq]
    intro x hx
    exact ⟨(hs' x hx).1, fun t ht => Nat.lt_succ_of_lt ((hs' x hx).2 t ht)⟩
  | inr h =>
    obtain ⟨r', row, hfind, hid, hmap, hlink⟩ := h
    rw [hmap]
    intro x hx
    obtain ⟨y, hy, hxy⟩ := List.mem_map.1 hx
    have hrow_mem : row ∈ s.reports := List.mem_of_find?_eq_some hfind
    have hrowinv := hs' row hrow_mem
    by_cases hyid : (y.id == r'.id) = true
    · have hxs : x.status = r'.status := by
        rw [← hxy]
        unfold updateRow
        rw [if_pos hyid]
      have hxf : x.finalizedAt = r'.finalizedAt := by
        rw [← hxy]
        unfold updateRow
        rw [if_pos hyid]
      constructor
      · intro hstx
        rw [hxf]
        rw [hxs] at hstx
        cases hlink with
        | inl hl =>
          rw [hl.2]
          rw [hl.1] at hstx
          exact hrowinv.1 hstx
        | inr h2 =>
          rw [h2.1 hstx]
          rfl
      · intro t ht
        rw [hxf] at ht
        cases hlink with
        | inl hl =>
          rw [hl.2] at ht
          exact Nat.lt_succ_of_lt (hrowinv.2 t ht)
        | inr h2 =>
          cases h2.2 with
          | inl hsc =>
            rw [hsc] at ht
            have : t = s.clock := by
              have := ht.symm
              simpa using this
            rw [this]
            exact Nat.lt_succ_self _
          | inr hrow =>
            rw [hrow] at ht
            exact Nat.lt_succ_of_lt (hrowinv.2 t ht)
    · have hx2 : x = y := by
        rw [← hxy]
        unfold updateRow
        rw [if_neg hyid]
      rw [hx2]
      exact ⟨(hs' y hy).1, fun t ht => Nat.lt_succ_of_lt ((hs' y hy).2 t ht)⟩

theorem mono_of_shape {s s2 : Store} {id : Nat}
    (hs : StoreInv s) (hsh : UpdShape id s s2) :
    OptTimeLE (finalizedView s id) (finalizedView s2.tick id) := by
  obtain ⟨hclock, hrep⟩ := hsh
  have hs' : RowsInv s.reports s.clock := hs
  have hrows : s2.tick.reports = s2.reports := rfl
  rw [finalizedView_eq_row, finalizedView_eq_row, hrows]
  cases hrep with
  | inl heq =>
    rw [heq]
    exact OptTimeLE_refl _
  | inr h =>
    obtain ⟨r', row, hfind, hid, hmap, hlink⟩ := h
    rw [hmap, find_updateRow, hfind]
    have hrowid : (row.id == r'.id) = true := by
      have h1 : row.id = id := by simpa using List.find?_some hfind
      simp [h1, hid]
    have hup : updateRow r' row = { row with
        status := r'.status
        lastModified := r'.lastModified
        finalizedAt := r'.finalizedAt } := by
      unfold updateRow
      rw [if_pos hrowid]
    simp only [Option.map_some', Option.some_bind]
    rw [hup]
    show OptTimeLE row.finalizedAt r'.finalizedAt
    cases hlink with
    | inl hl =>
      rw [hl.2]
      exact OptTimeLE_refl _
    | inr h2 =>
      cases h2.2 with
      | inl hsc =>
        rw [hsc]
        cases hrf : row.finalizedAt with
        | none => trivial
        | some t =>
          exact Nat.le_of_lt ((hs' row (List.mem_of_find?_eq_some hfind)).2
            t hrf)
      | inr hrow =>
        rw [hrow]
        exact OptTimeLE_refl _

theorem UpdShape_stepOp (id : Nat) (s : Store) (op : Op) :
    ∃ s2, stepOp id s op = s2.tick ∧ UpdShape id s s2 := by
  cases op with
  | updateContent c u => exact ⟨_, rfl, UpdShape_updateContent s id c u⟩
  | changeStatus t => exact ⟨_, rfl, UpdShape_changeStatus s id t⟩
  | restoreVersion n u => exact ⟨_, rfl, UpdShape_restoreVersion s id n u⟩

theorem storeInv_stepOp (id : Nat) (s : Store) (op : Op) (hs : StoreInv s) :
    StoreInv (stepOp id s op) := by
  obtain ⟨s2, heq, hsh⟩ := UpdShape_stepOp id s op
  rw [heq]
  exact storeInv_of_shape hs hsh

theorem storeInv_runOps (id : Nat) (ops : List Op) :
    ∀ s : Store, StoreInv s → StoreInv (runOps id s ops) := by
  induction ops with
  | nil => exact fun s hs => hs
  | cons op ops ih => exact fun s hs => ih _ (storeInv_stepOp id s op hs)

theorem mono_runOps (id : Nat) (ops : List Op) :
    ∀ s : Store, StoreInv s →
      OptTimeLE (finalizedView s id) (finalizedView (runOps id s ops) id) := by
  induction ops with
  | nil => exact fun s _ => OptTimeLE_refl _
  | cons op ops ih =>
    intro s hs
    obtain ⟨s2, heq, hsh⟩ := UpdShape_stepOp id s op
    have h1 : OptTimeLE (finalizedView s id)
        (finalizedView (stepOp id s op) id) := by
      rw [heq]
      exact mono_of_shape hs hsh
    exact OptTimeLE_trans h1 (ih (stepOp id s op) (storeInv_stepOp id s op hs))

theorem runOps_append (id : Nat) (s : Store) (l1 l2 : List Op) :
    runOps id s (l1 ++ l2) = runOps id (runOps id s l1) l2 := by
  unfold runOps
  exact List.foldl_append _ _ _ _

theorem storeInv_createdStore (hosp doc : Nat) (fn ln sp rt : String) :
    StoreInv (createdStore hosp fn ln sp rt doc) := by
  unfold createdStore CreateReport
  rw [if_neg (by decide)]
  intro x hx
  have hx2 : x = NewReport 0 hosp "1850312400123" fn ln sp rt doc 0 := by
    simpa [Store.Create, Store.SaveVersion, Store.tick, Store.empty] using hx
  rw [hx2]
  constructor
  · intro hst
    rcases hst with hst | hst <;> exact absurd hst (by simp [NewReport])
  · intro t ht
    exact absurd ht (by simp [NewReport])


/-- Claim C3 counterexample: the reachable trace create → updateContent
(complete) → InReview → Approved → Draft ends with status Draft while
`finalizedAt = some 3` is still set, refuting the claimed "finalizedAt is
non-nil iff status ∈ {Approved, Signed}". -/
theorem finalizedAt_iff_counterexample :
    reportView (runOps 0 demoStore
      [.updateContent completeContent 3, .changeStatus .inReview,
        .changeStatus .approved, .changeStatus .draft]) 0 =
      some (.draft, some 3) := by decide

/-- Claim C3 (amended): along every operation sequence after create, a
report in Approved or Signed status has `finalizedAt` set (the forward
implication; the converse fails after Approved → Draft), and `finalizedAt`
is monotone — once set it is never cleared and its value never decreases. -/
theorem finalizedAt_forward_and_monotone (hosp doc : Nat)
    (fn ln sp rt : String) (ops ops2 : List Op) (r : Report)
    (h : (runOps 0 (createdStore hosp fn ln sp rt doc) ops).GetByID 0 =
      .ok r) :
    ((r.status = .approved ∨ r.status = .signed) → r.finalizedAt.isSome = true)
    ∧ OptTimeLE
        (finalizedView (runOps 0 (createdStore hosp fn ln sp rt doc) ops) 0)
        (finalizedView
          (runOps 0 (createdStore hosp fn ln sp rt doc) (ops ++ ops2)) 0) := by
  have hinv : StoreInv (runOps 0 (createdStore hosp fn ln sp rt doc) ops) :=
    storeInv_runOps 0 ops _ (storeInv_createdStore hosp doc fn ln sp rt)
  constructor
  · intro hst
    obtain ⟨row, hmem, hid, hstat, hlm, hfin⟩ := GetByID_ok_mem h
    have hinv' : RowsInv
        (runOps 0 (createdStore hosp fn ln sp rt doc) ops).reports
        (runOps 0 (createdStore hosp fn ln sp rt doc) ops).clock := hinv
    have hr := hinv' row hmem
    rw [← hfin]
    exact hr.1 (by rw [hstat]; exact hst)
  · rw [runOps_append]
    exact mono_runOps 0 ops2 _ hinv

theorem finalizedAt_forward_and_monotone_witness :
    ((runOps 0 (createdStore 7 "Maria" "Pop" "internal_medicine"
        "discharge_summary" 3)
      [.updateContent completeContent 3, .changeStatus .inReview,
        .changeStatus .approved]).GetByID 0 = .ok demoReportApproved) ∧
    ((demoReportApproved.status = .approved ∨
        demoReportApproved.status = .signed) →
      demoReportApproved.finalizedAt.isSome = true)
    ∧ OptTimeLE
        (finalizedView (runOps 0 (createdStore 7 "Maria" "Pop"
          "internal_medicine" "discharge_summary" 3)
          [.updateContent completeContent 3, .changeStatus .inReview,
            .changeStatus .approved]) 0)
        (finalizedView (runOps 0 (createdStore 7 "Maria" "Pop"
          "internal_medicine" "discharge_summary" 3)
          ([.updateContent completeContent 3, .changeStatus .inReview,
            .changeStatus .approved] ++ [.changeStatus .signed])) 0) :=
  ⟨by decide,
    (finalizedAt_forward_and_monotone 7 3 "Maria" "Pop" "internal_medicine"
      "discharge_summary"
      [.updateContent completeContent 3, .changeStatus .inReview,
        .changeStatus .approved] [.changeStatus .signed] demoReportApproved
      (by decide)).1,
    (finalizedAt_forward_and_monotone 7 3 "Maria" "Pop" "internal_medicine"
      "discharge_summary"
      [.updateContent completeContent 3, .changeStatus .inReview,
        .changeStatus .approved] [.changeStatus .signed] demoReportApproved
      (by decide)).2⟩


theorem VNO_congr {s1 s : Store} (id : Nat)
    (hv : s1.versions = s.versions) :
    VersionNumbersOf s1 id = VersionNumbersOf s id := by
  unfold VersionNumbersOf Store.GetVersions
  rw [hv]

theorem VNO_save {s1 : Store} (s : Store) {v : ReportVersion} (id : Nat)
    (hv : s1.versions = s.versions) (hrid : v.reportID = id) :
    VersionNumbersOf (s1.SaveVersion v) id =
      VersionNumbersOf s id ++ [v.versionNumber] := by
  unfold VersionNumbersOf Store.GetVersions Store.SaveVersion
  rw [hv, List.filter_append, List.map_append]
  congr 1
  cases hb : v.reportID == id with
  | true => simp [List.filter, hb]
  | false => exact absurd (by simpa using hb) (by simp [hrid])


theorem VNO_append {s1 s : Store} {v : ReportVersion} (id : Nat)
    (hv : s1.versions = s.versions ++ [v]) (hrid : v.reportID = id) :
    VersionNumbersOf s1 id = VersionNumbersOf s id ++ [v.versionNumber] := by
  unfold VersionNumbersOf Store.GetVersions
  rw [hv, List.filter_append, List.map_append]
  congr 1
  cases hb : v.reportID == id with
  | true => simp [List.filter, hb]
  | false => exact absurd (by simpa using hb) (by simp [hrid])

theorem changeStatus_versions (s : Store) (id : Nat) (t : Status) :
    (UpdateReportStatus s id t).2.versions = s.versions := by
  unfold UpdateReportStatus
  split
  · rfl
  · split
    · rfl
    · split
      · rfl
      · rfl

theorem updateContent_versions (s : Store) (id : Nat) (c : ReportContent)
    (u : Nat) :
    ((UpdateReportContent s id c u).1.toBool = false ∧
      (UpdateReportContent s id c u).2.versions = s.versions) ∨
    ((UpdateReportContent s id c u).1.toBool = true ∧
      ∃ v, (UpdateReportContent s id c u).2.versions = s.versions ++ [v] ∧
        v.reportID = id ∧
        v.versionNumber = (s.GetVersions id).length + 1) := by
  unfold UpdateReportContent
  split
  · exact Or.inl ⟨rfl, rfl⟩
  · split
    · exact Or.inl ⟨rfl, rfl⟩
    · exact Or.inr ⟨rfl, _, rfl, rfl, rfl⟩

theorem restoreVersion_versions (s : Store) (id n u : Nat) :
    ((RestoreVersion s id n u).1.toBool = false ∧
      (RestoreVersion s id n u).2.versions = s.versions) ∨
    ((RestoreVersion s id n u).1.toBool = true ∧
      ∃ v, (RestoreVersion s id n u).2.versions = s.versions ++ [v] ∧
        v.reportID = id ∧
        v.versionNumber = (s.GetVersions id).length + 1) := by
  unfold RestoreVersion
  split
  · exact Or.inl ⟨rfl, rfl⟩
  · split
    · exact Or.inl ⟨rfl, rfl⟩
    · split
      · exact Or.inl ⟨rfl, rfl⟩
      · exact Or.inr ⟨rfl, _, rfl, rfl, rfl⟩

/-- One service call either appends exactly the next sequential version
number or leaves the report's ledger untouched, matching `opAppends`. -/
theorem stepOp_versionNumbers (id : Nat) (s : Store) (op : Op) :
    VersionNumbersOf (stepOp id s op) id =
      VersionNumbersOf s id ++
        (if opAppends id s op then [(s.GetVersions id).length + 1]
          else []) := by
  cases op with
  | changeStatus t =>
    have h1 : VersionNumbersOf (stepOp id s (.changeStatus t)) id =
        VersionNumbersOf s id :=
      VNO_congr id (changeStatus_versions s id t)
    rw [h1]
    simp [opAppends]
  | updateContent c u =>
    have hap : opAppends id s (.updateContent c u) =
        (UpdateReportContent s id c u).1.toBool := rfl
    cases updateContent_versions s id c u with
    | inl h =>
      rw [VNO_congr id (show (stepOp id s (.updateContent c u)).versions =
        s.versions from h.2)]
      rw [hap, h.1]
      simp
    | inr h =>
      obtain ⟨ht, v, hv, hrid, hnum⟩ := h
      rw [VNO_append id
        (show (stepOp id s (.updateContent c u)).versions =
          s.versions ++ [v] from hv) hrid]
      rw [hap, ht, hnum]
      simp
  | restoreVersion n u =>
    have hap : opAppends id s (.restoreVersion n u) =
        (RestoreVersion s id n u).1.toBool := rfl
    cases restoreVersion_versions s id n u with
    | inl h =>
      rw [VNO_congr id (show (stepOp id s (.restoreVersion n u)).versions =
        s.versions from h.2)]
      rw [hap, h.1]
      simp
    | inr h =>
      obtain ⟨ht, v, hv, hrid, hnum⟩ := h
      rw [VNO_append id
        (show (stepOp id s (.restoreVersion n u)).versions =
          s.versions ++ [v] from hv) hrid]
      rw [hap, ht, hnum]
      simp


theorem countAppends_cons (id : Nat) (s : Store) (op : Op) (ops : List Op) :
    countAppends id s (op :: ops) =
      countAppends id (stepOp id s op) ops +
        (if opAppends id s op then 1 else 0) := rfl

theorem VNO_length (s : Store) (id : Nat) :
    (VersionNumbersOf s id).length = (s.GetVersions id).length := by
  unfold VersionNumbersOf
  rw [List.length_map]

theorem runOps_contiguous (id : Nat) (ops : List Op) : ∀ s : Store,
    VersionNumbersOf s id = List.range' 1 (s.GetVersions id).length →
    VersionNumbersOf (runOps id s ops) id =
      List.range' 1 ((s.GetVersions id).length + countAppends id s ops) := by
  induction ops with
  | nil =>
    intro s h
    simpa [countAppends] using h
  | cons op ops ih =>
    intro s h
    have hstep := stepOp_versionNumbers id s op
    have hcnt := countAppends_cons id s op ops
    have hrun : runOps id s (op :: ops) = runOps id (stepOp id s op) ops := rfl
    rw [hrun]
    cases hap : opAppends id s op with
    | false =>
      rw [hap] at hstep hcnt
      rw [if_neg (by simp), List.append_nil] at hstep
      rw [if_neg (by simp), Nat.add_zero] at hcnt
      have hlen : ((stepOp id s op).GetVersions id).length =
          (s.GetVersions id).length := by
        rw [← VNO_length, hstep, VNO_length]
      have := ih (stepOp id s op) (by rw [hstep, hlen, h])
      rw [this, hlen, hcnt]
    | true =>
      rw [hap] at hstep hcnt
      rw [if_pos rfl] at hstep
      rw [if_pos rfl] at hcnt
      have hlen : ((stepOp id s op).GetVersions id).length =
          (s.GetVersions id).length + 1 := by
        rw [← VNO_length, hstep]
        rw [List.length_append, VNO_length]
        rfl
      have hrange : VersionNumbersOf (stepOp id s op) id =
          List.range' 1 ((stepOp id s op).GetVersions id).length := by
        rw [hstep, h, hlen]
        rw [List.range'_concat]
        congr 1
        simp [Nat.add_comm]
      have := ih (stepOp id s op) hrange
      rw [this, hlen, hcnt]
      congr 1
      omega

/-- Under sequential execution the ledger keeps exactly the version numbers
`1 .. 1 + #successful appends`: the contiguity property for every
non-interleaved run.  On such runs every insert carries the next free
number, so the unconditional append and the constraint-checked insert
agree (see `SaveVersionChecked_fresh`). -/
theorem sequential_ledger_contiguous (hosp doc : Nat) (fn ln sp rt : String)
    (ops : List Op) :
    VersionNumbersOf (runOps 0 (createdStore hosp fn ln sp rt doc) ops) 0 =
      List.range' 1
        (1 + countAppends 0 (createdStore hosp fn ln sp rt doc) ops) := by
  have hbase : VersionNumbersOf (createdStore hosp fn ln sp rt doc) 0 =
      List.range' 1
        ((createdStore hosp fn ln sp rt doc).GetVersions 0).length := rfl
  have hmain := runOps_contiguous 0 ops (createdStore hosp fn ln sp rt doc)
    hbase
  rw [hmain]
  congr 1

/-! ## The uniqueness constraint on the ledger -/

theorem mem_VNO_iff (s : Store) (id k : Nat) :
    k ∈ VersionNumbersOf s id ↔
      ∃ w ∈ s.versions, w.reportID = id ∧ w.versionNumber = k := by
  unfold VersionNumbersOf Store.GetVersions
  simp only [List.mem_map, List.mem_filter, beq_iff_eq]
  constructor
  · rintro ⟨a, ⟨hmem, hrep⟩, hnum⟩
    exact ⟨a, hmem, hrep, hnum⟩
  · rintro ⟨a, hmem, hrep, hnum⟩
    exact ⟨a, ⟨hmem, hrep⟩, hnum⟩

/-- When the inserted number is not yet in the report's ledger, the
constraint-checked insert commits and agrees with the plain append — in
particular on every sequential service path, which always inserts
count + 1 into a contiguous ledger. -/
theorem SaveVersionChecked_fresh (s : Store) (v : ReportVersion)
    (h : v.versionNumber ∉ VersionNumbersOf s v.reportID) :
    s.SaveVersionChecked v = .ok (s.SaveVersion v) := by
  have hc : ¬ (s.versions.any (fun w =>
      w.reportID == v.reportID && w.versionNumber == v.versionNumber) =
        true) := by
    rw [List.any_eq_true]
    rintro ⟨w, hw, hpred⟩
    simp only [Bool.and_eq_true, beq_iff_eq] at hpred
    exact h ((mem_VNO_iff s v.reportID v.versionNumber).2
      ⟨w, hw, hpred.1, hpred.2⟩)
  unfold Store.SaveVersionChecked
  rw [if_neg hc]

/-- Claim C4: the set of ledger version numbers is exactly `{1..N}` with
`N` equal to 1 plus the number of successful `updateContent` /
`restoreVersion` calls.  First conjunct: every sequential run.  Second
conjunct: the concurrent case — any insert the service attempts carries
some previously read count + 1, which is between 1 and N + 1; under the
schema's `UNIQUE(report_id, version_number)` it commits exactly when the
number is the next free one, keeping the set `{1..N+1}`, and otherwise the
statement fails and that call is unsuccessful with the ledger unchanged —
so no interleaving can commit a duplicate or a gap.  Third conjunct: in
the two-writer raced schedule both read count 1; the first write commits
number 2 and the second fails with the unique violation, leaving ledger
numbers `[1, 2]`. -/
theorem ledger_version_numbers_contiguous :
    (∀ (hosp doc : Nat) (fn ln sp rt : String) (ops : List Op),
      VersionNumbersOf (runOps 0 (createdStore hosp fn ln sp rt doc) ops) 0 =
        List.range' 1
          (1 + countAppends 0 (createdStore hosp fn ln sp rt doc) ops))
    ∧ (∀ (s : Store) (id : Nat) (v : ReportVersion) (N : Nat),
      VersionNumbersOf s id = List.range' 1 N → v.reportID = id →
      1 ≤ v.versionNumber → v.versionNumber ≤ N + 1 →
      (v.versionNumber = N + 1 ∧
        s.SaveVersionChecked v = .ok (s.SaveVersion v) ∧
        VersionNumbersOf (s.SaveVersion v) id = List.range' 1 (N + 1)) ∨
      (v.versionNumber ≤ N ∧
        s.SaveVersionChecked v = .error .databaseQuery))
    ∧ (racedChecked.1.1 = .ok () ∧
      racedChecked.1.2 = .error .databaseQuery ∧
      VersionNumbersOf racedChecked.2 0 = [1, 2]) := by
  refine ⟨sequential_ledger_contiguous, ?_, by decide, by decide, by decide⟩
  intro s id v N hnum hrid h1 hle
  by_cases hcase : v.versionNumber ≤ N
  · refine Or.inr ⟨hcase, ?_⟩
    have hany : s.versions.any (fun w =>
        w.reportID == v.reportID && w.versionNumber == v.versionNumber) =
          true := by
      rw [List.any_eq_true]
      have hmem : v.versionNumber ∈ VersionNumbersOf s id := by
        rw [hnum, List.mem_range'_1]
        omega
      obtain ⟨w, hw, hwrep, hwnum⟩ :=
        (mem_VNO_iff s id v.versionNumber).1 hmem
      exact ⟨w, hw, by simp [hwrep, hwnum, hrid]⟩
    unfold Store.SaveVersionChecked
    rw [if_pos hany]
  · have heq : v.versionNumber = N + 1 := by omega
    refine Or.inl ⟨heq, ?_, ?_⟩
    · apply SaveVersionChecked_fresh
      rw [hrid, hnum, List.mem_range'_1]
      omega
    · rw [VNO_append id rfl hrid, hnum, heq, List.range'_concat]
      congr 2
      omega

theorem ledger_version_numbers_contiguous_witness :
    VersionNumbersOf demoStore 0 = List.range' 1 1 ∧
    (NewReportVersion 9 0 2 ReportContent.empty 4 "w" 7).reportID = 0 ∧
    1 ≤ (NewReportVersion 9 0 2 ReportContent.empty 4 "w" 7).versionNumber ∧
    (NewReportVersion 9 0 2 ReportContent.empty 4 "w" 7).versionNumber ≤
      1 + 1 ∧
    (((NewReportVersion 9 0 2 ReportContent.empty 4 "w" 7).versionNumber =
        1 + 1 ∧
      demoStore.SaveVersionChecked
          (NewReportVersion 9 0 2 ReportContent.empty 4 "w" 7) =
        .ok (demoStore.SaveVersion
          (NewReportVersion 9 0 2 ReportContent.empty 4 "w" 7)) ∧
      VersionNumbersOf (demoStore.SaveVersion
          (NewReportVersion 9 0 2 ReportContent.empty 4 "w" 7)) 0 =
        List.range' 1 (1 + 1)) ∨
    ((NewReportVersion 9 0 2 ReportContent.empty 4 "w" 7).versionNumber ≤
        1 ∧
      demoStore.SaveVersionChecked
          (NewReportVersion 9 0 2 ReportContent.empty 4 "w" 7) =
        .error .databaseQuery)) :=
  ⟨by decide, by decide, by decide, by decide,
    ledger_version_numbers_contiguous.2.1 demoStore 0
      (NewReportVersion 9 0 2 ReportContent.empty 4 "w" 7) 1
      (by decide) (by decide) (by decide) (by decide)⟩

end MedicalReports
